import Mathlib

/-!
Verification of the DALI Manchester codec of this repository
(`dali_monitor.py` receiver class `rx`, `test_waves.py` / `hass_dali.py`
transmitter class `DaliTransmitter`).

The receiver is an edge-driven state machine: pigpio invokes `_cbe` on each
edge of the RX gpio (with the new level and a microsecond tick) and on the
watchdog timeout (level 2).  The transmitter builds a pigpio wave chain from
four basic waveforms (start cell, '1' cell, '0' cell, stop segment).

All machine integers are modelled as `Nat`; pigpio ticks wrap at 2^32, which
is captured by `tickDiff` below.  Frame delivery (the `self.cb(frame,
timestamps)` call in `rx.stop`) is modelled as the `Frame` output of a step.
-/

namespace Dali

/-- Timing constants of `rx` (dali_monitor.py lines 13-18), in microseconds. -/
def MIN_TE : Nat := 350

/-- Upper tolerance bound of a short (1 Te) segment. -/
def MAX_TE : Nat := 490

/-- Lower tolerance bound of a long (2 Te) segment. -/
def MIN_2TE : Nat := 760

/-- Upper tolerance bound of a long (2 Te) segment. -/
def MAX_2TE : Nat := 900

/-- Classification of an edge-to-edge duration.  The source checks the two
windows inline in `rx._decode`; `classify` names the three outcomes of those
inline conditions (LONG window first, as in the `if`/`elif` chain). -/
inductive Sym where
  | SHORT
  | LONG
  | INVALID
deriving Repr, DecidableEq

/-- Timing windows of `rx._decode` as a function of the duration:
`760 < d < 900` is long, `350 < d < 490` is short, anything else invalid
(strict comparisons as in the source). -/
def classify (d : Nat) : Sym :=
  if MIN_2TE < d ∧ d < MAX_2TE then .LONG
  else if MIN_TE < d ∧ d < MAX_TE then .SHORT
  else .INVALID

/-- One entry of `rx._timestamps` (dali_monitor.py lines 145-148). -/
structure Timestamp where
  level : Nat
  tick : Nat
  len : Nat
  bits : Nat
deriving Repr, DecidableEq

/-- The mutable fields of the `rx` object that the receive path touches
(dali_monitor.py lines 30-34 and 39).  `prev` is only assigned inside `_cbe`
/ `_decode` in the source (never in `__init__`); it is read only after having
been set, so its initial value below is immaterial. -/
structure RxState where
  in_code : Nat
  edges : Nat
  code : Nat
  prev_edge_len : Nat
  prev : Nat
  timestamps : List Timestamp
  last_edge_tick : Nat
deriving Repr, DecidableEq

/-- What `rx.stop` hands to the user callback: `self.cb(frame, timestamps)`. -/
structure Frame where
  frame : Nat
  timestamps : List Timestamp
deriving Repr, DecidableEq

/-- Model of `pigpio.tickDiff(t1, t2)`: difference of two 32-bit ticks modulo 2^32. -/
def tickDiff (t1 t2 : Nat) : Nat :=
  (t2 + (2 ^ 32 - t1 % 2 ^ 32)) % 2 ^ 32

/-- State of a fresh `rx` object (`__init__`): all counters zero, empty
trace, `last_edge_tick` read from the current tick `t0`. -/
def initState (t0 : Nat) : RxState :=
  { in_code := 0, edges := 0, code := 0, prev_edge_len := 0, prev := 0,
    timestamps := [], last_edge_tick := t0 }

/-- Model of `rx._decode(high_time, low_time)` (dali_monitor.py lines 76-110).
`action = prev << 2`, `| 1` when the high time is in the long window, `| 2`
when the low time is, with `self._in_code = 0` on any out-of-window half;
then the accumulator is shifted and the action dispatched exactly as in the
source (`[1,3,6]` sets the flag only, `[2,7]` appends two bits `0,1`,
`4` appends `1`, anything else appends `0`). -/
def decode (s : RxState) (high_time low_time : Nat) : RxState :=
  let action := s.prev * 4
  let hi := classify high_time
  let action := if hi = .LONG then action + 1 else action
  let ic := if hi = .INVALID then 0 else s.in_code
  let lo := classify low_time
  let action := if lo = .LONG then action + 2 else action
  let ic := if lo = .INVALID then 0 else ic
  let code := s.code * 2
  if action = 1 ∨ action = 3 ∨ action = 6 then
    { s with in_code := 0, code := code }
  else if action = 2 ∨ action = 7 then
    { s with in_code := ic, code := code * 2 + 1, prev := 1 }
  else if action = 4 then
    { s with in_code := ic, code := code + 1, prev := 1 }
  else
    { s with in_code := ic, code := code, prev := 0 }

/-- Model of `rx.stop` (dali_monitor.py lines 62-74): capture `frame = self._code` and
the trace, zero `_edges`, `_code`, `_in_code`, then invoke the user callback
with the captured pair (returned here as the `Frame`). -/
def stop (s : RxState) : RxState × Frame :=
  let frame := s.code
  let timestamps := s.timestamps
  ({ s with edges := 0, code := 0, in_code := 0 },
   { frame := frame, timestamps := timestamps })

/-- Milliseconds passed to `self._wdog(2)` at the end of each edge. -/
def WATCHDOG_MS : Nat := 2

/-- Model of `rx._cbe(gpio, level, tick)` (dali_monitor.py lines 112-154).  Returns
the new state, the delivered frame (if the callback fired, i.e. on a
watchdog event), and the list of arguments of the `_wdog` calls made,
in order (`_wdog(0)` first in both branches, `_wdog(2)` after an edge). -/
def cbe (s : RxState) (level tick : Nat) : RxState × Option Frame × List Nat :=
  if level < 2 then
    let edge_len := tickDiff s.last_edge_tick tick
    let s := { s with last_edge_tick := tick }
    let s := if s.in_code = 0 then { s with timestamps := [] } else s
    let s :=
      if s.edges < 2 then { s with prev := 1 }
      else if s.edges % 2 = 1 then decode s s.prev_edge_len edge_len
      else { s with prev_edge_len := edge_len }
    let s := { s with edges := s.edges + 1 }
    let s := { s with timestamps :=
                 s.timestamps ++ [{ level := level, tick := tick,
                                    len := edge_len, bits := s.edges }] }
    (s, none, [0, WATCHDOG_MS])
  else
    let p := stop s
    (p.1, some p.2, [0])

/-- Run the edge callback over a list of `(level, tick)` events, collecting
every delivered frame in order. -/
def runEvents : RxState → List (Nat × Nat) → RxState × List Frame
  | s, [] => (s, [])
  | s, (l, t) :: rest =>
      let p := cbe s l t
      let r := runEvents p.1 rest
      (r.1, p.2.1.toList ++ r.2)

/-- Transmitter start waveform (`DaliTransmitter._make_waves`): the pin high
for `te` then low for `te` (a full Manchester '1' cell).  Segments are
`(pin level, duration)` pairs, `true` meaning the pin driven high. -/
def makeWaveStart (te : Nat) : List (Bool × Nat) := [(true, te), (false, te)]

/-- Transmitter stop waveform: pin low (bus idle) for `tstop = 2*te`. -/
def makeWaveStop (te : Nat) : List (Bool × Nat) := [(false, 2 * te)]

/-- Transmitter '0' bit waveform: pin low `te` then high `te`. -/
def makeWave0 (te : Nat) : List (Bool × Nat) := [(false, te), (true, te)]

/-- Transmitter '1' bit waveform: pin high `te` then low `te`. -/
def makeWave1 (te : Nat) : List (Bool × Nat) := [(true, te), (false, te)]

/-- The bit sequence emitted by `DaliTransmitter.send`'s loop: for
`i in range(bits)` it tests `code & bit` with `bit = 1 << (bits - 1 - i)`,
i.e. the bits of `code` from most significant (position `bits-1`) down. -/
def sendBits (code bits : Nat) : List Bool :=
  (List.range bits).map (fun i => code &&& (1 <<< (bits - 1 - i)) ≠ 0)

/-- The pulse train of one frame as chained by `DaliTransmitter.send`
(one repeat of the `[255,0] ... [255,1,repeats,0]` wave-chain loop body):
start cell, one Manchester cell per bit MSB-first, stop segment. -/
def sendTrain (code bits te : Nat) : List (Bool × Nat) :=
  makeWaveStart te ++
    (sendBits code bits).flatMap (fun b => if b then makeWave1 te else makeWave0 te) ++
    makeWaveStop te

/-- Model of `DaliTransmitter.send` as seen by the caller: for `bits = 0` the Python
statement `bit = 1 << (bits - 1)` raises `ValueError` (negative shift count)
before any wave is chained, modelled as `none`; otherwise the frame's pulse
train is emitted (the source performs no validation of `code`). -/
def send (code bits te : Nat) : Option (List (Bool × Nat)) :=
  if bits = 0 then none else some (sendTrain code bits te)

/-! Simulation harness: turn the transmitted pulse train into the edge
timeline seen by the receiver.  The DALI bus is the inversion of the TX pin
(pin high pulls the bus low), and the RX gpio follows the bus, so the RX
level of a segment is the negation of its pin level; bus idle (pin low) is
RX high.  Consecutive equal-level segments merge into one run; each level
change is one edge event carrying the duration of the completed run. -/

/-- Collapse a segment list into edges.  `lvl` is the current line level and
`run` the duration it has held so far; each change of level emits
`(new level, completed run duration)`.  The run left open at the end (the
trailing idle) emits no edge. -/
def busEdges : Bool → Nat → List (Bool × Nat) → List (Bool × Nat)
  | _, _, [] => []
  | lvl, run, (l, d) :: rest =>
      if l = lvl then busEdges lvl (run + d) rest
      else (l, run) :: busEdges l d rest

/-- Edge timeline (RX levels and durations) produced by transmitting
`sendTrain code bits te` after the line has idled high for `gap` µs. -/
def rxEdges (code bits te gap : Nat) : List (Bool × Nat) :=
  busEdges true gap ((sendTrain code bits te).map (fun p => (!p.1, p.2)))

/-- Convert an edge timeline of `(level, duration)` into the `(level, tick)`
event list passed to the edge callback, with ticks accumulated from `t0`. -/
def ticksOf (t0 : Nat) : List (Bool × Nat) → List (Nat × Nat)
  | [] => []
  | (l, d) :: rest => (cond l 1 0, t0 + d) :: ticksOf (t0 + d) rest

/-- MSB-first accumulation step: shift the accumulator and add the bit. -/
def step2 (a : Nat) (b : Bool) : Nat := a * 2 + cond b 1 0

/-- RX-side view (inverted levels) of one Manchester bit cell at the nominal
`te = 417`: a '1' is RX low then high, a '0' is RX high then low. -/
def rxCell (b : Bool) : List (Bool × Nat) :=
  if b then [(false, 417), (true, 417)] else [(true, 417), (false, 417)]

/-- State relation for decoder determinism: two `rx` states that agree on
the accumulator, edge counter and flag, on `prev`/`last_edge_tick` once at
least one edge of the current attempt has arrived, and on `prev_edge_len`
once a high time has been captured (third edge onward).  Replaying one trace
from two such states is observationally equal up to trace contents. -/
def Rrel (s s' : RxState) : Prop :=
  s.edges = s'.edges ∧ s.code = s'.code ∧ s.in_code = s'.in_code ∧
  (1 ≤ s.edges → s.prev = s'.prev ∧ s.last_edge_tick = s'.last_edge_tick) ∧
  (3 ≤ s.edges → s.prev_edge_len = s'.prev_edge_len)

/-- Mid-frame decoder/bus configuration "A": the rising edge in the middle
of a Manchester '1' cell has just been processed (even edge count `2*m`,
provisional previous bit 1), the line is high and has been for 417 µs (the
second half of that cell), and the cells of the remaining bits followed by
the stop segment are still to come. -/
def runA (bs : List Bool) (m c pel t : Nat) (ts : List Timestamp) :
    RxState × List Frame :=
  runEvents
    { in_code := 0, edges := 2*m, code := c, prev_edge_len := pel, prev := 1,
      timestamps := ts, last_edge_tick := t }
    (ticksOf t (busEdges true 417 (bs.flatMap rxCell ++ [(true, 834)])))

/-- Mid-frame decoder/bus configuration "B": the falling edge in the middle
of a Manchester '0' cell has just been processed (odd edge count `2*m+1`,
provisional previous bit 0, captured high time 417), the line is low and has
been for 417 µs, the current cell's 0 bit is not yet appended, and the cells
of the remaining bits followed by the stop segment are still to come. -/
def runB (bs : List Bool) (m c t : Nat) (ts : List Timestamp) :
    RxState × List Frame :=
  runEvents
    { in_code := 0, edges := 2*m+1, code := c, prev_edge_len := 417, prev := 0,
      timestamps := ts, last_edge_tick := t }
    (ticksOf t (busEdges false 417 (bs.flatMap rxCell ++ [(true, 834)])))

/-- Modelled from the spec: the pulse-train shape asserted by the spec's
encoder sentence — "one half-bit start segment, then for each bit from
most-significant to least-significant a two-half Manchester cell
(high-then-low for '1', low-then-high for '0', each Te), then a stop segment
of 2×Te at idle level".  Used only to compare the spec's claimed shape with
the shape the source actually produces. -/
def specPulseTrain (code bits te : Nat) : List (Bool × Nat) :=
  [(true, te)] ++
    (sendBits code bits).flatMap (fun b => if b then makeWave1 te else makeWave0 te) ++
    [(false, 2 * te)]

/-! ## Helper lemmas -/

theorem tickDiff_add (t d : Nat) (hd : d < 2 ^ 32) : tickDiff t (t + d) = d := by
  unfold tickDiff
  omega

theorem sendBits_testBit (code bits : Nat) :
    sendBits code bits = (List.range bits).map (fun i => code.testBit (bits - 1 - i)) := by
  unfold sendBits
  apply List.map_congr_left
  intro i _
  rw [Nat.shiftLeft_eq, one_mul, Nat.and_two_pow]
  have h2 : (2 : Nat) ^ (bits - 1 - i) ≠ 0 := pow_ne_zero _ two_ne_zero
  cases h : code.testBit (bits - 1 - i) <;> simp [h, h2]

theorem sendBits_mod (code bits : Nat) :
    sendBits (code % 2 ^ bits) bits = sendBits code bits := by
  rw [sendBits_testBit, sendBits_testBit]
  apply List.map_congr_left
  intro i hi
  rw [List.mem_range] at hi
  rw [Nat.testBit_mod_two_pow]
  have : bits - 1 - i < bits := by omega
  simp [this]

theorem classify_417 : classify 417 = .SHORT := by decide

theorem classify_834 : classify 834 = .LONG := by decide

theorem decode_edges (s : RxState) (h l : Nat) : (decode s h l).edges = s.edges := by
  simp only [decode]
  split_ifs <;> rfl

theorem decode_timestamps (s : RxState) (h l : Nat) :
    (decode s h l).timestamps = s.timestamps := by
  simp only [decode]
  split_ifs <;> rfl

theorem decode_last_edge_tick (s : RxState) (h l : Nat) :
    (decode s h l).last_edge_tick = s.last_edge_tick := by
  simp only [decode]
  split_ifs <;> rfl

theorem decode_prev_edge_len (s : RxState) (h l : Nat) :
    (decode s h l).prev_edge_len = s.prev_edge_len := by
  simp only [decode]
  split_ifs <;> rfl

theorem decode_SS1 (ic e c pel : Nat) (ts : List Timestamp) (t : Nat) :
    decode { in_code := ic, edges := e, code := c, prev_edge_len := pel,
             prev := 1, timestamps := ts, last_edge_tick := t } 417 417 =
      { in_code := ic, edges := e, code := c*2+1, prev_edge_len := pel,
        prev := 1, timestamps := ts, last_edge_tick := t } := by
  simp [decode, classify_417]

theorem decode_LS1 (ic e c pel : Nat) (ts : List Timestamp) (t : Nat) :
    decode { in_code := ic, edges := e, code := c, prev_edge_len := pel,
             prev := 1, timestamps := ts, last_edge_tick := t } 834 417 =
      { in_code := ic, edges := e, code := c*2, prev_edge_len := pel,
        prev := 0, timestamps := ts, last_edge_tick := t } := by
  simp [decode, classify_417, classify_834]

theorem decode_LL1 (ic e c pel : Nat) (ts : List Timestamp) (t : Nat) :
    decode { in_code := ic, edges := e, code := c, prev_edge_len := pel,
             prev := 1, timestamps := ts, last_edge_tick := t } 834 834 =
      { in_code := ic, edges := e, code := c*2*2+1, prev_edge_len := pel,
        prev := 1, timestamps := ts, last_edge_tick := t } := by
  simp [decode, classify_834]

theorem decode_SS0 (ic e c pel : Nat) (ts : List Timestamp) (t : Nat) :
    decode { in_code := ic, edges := e, code := c, prev_edge_len := pel,
             prev := 0, timestamps := ts, last_edge_tick := t } 417 417 =
      { in_code := ic, edges := e, code := c*2, prev_edge_len := pel,
        prev := 0, timestamps := ts, last_edge_tick := t } := by
  simp [decode, classify_417]

theorem decode_SL0 (ic e c pel : Nat) (ts : List Timestamp) (t : Nat) :
    decode { in_code := ic, edges := e, code := c, prev_edge_len := pel,
             prev := 0, timestamps := ts, last_edge_tick := t } 417 834 =
      { in_code := ic, edges := e, code := c*2*2+1, prev_edge_len := pel,
        prev := 1, timestamps := ts, last_edge_tick := t } := by
  simp [decode, classify_417, classify_834]

theorem cbe_start (e : Nat) (he : e < 2) (c pel pv : Nat) (ts : List Timestamp)
    (t l k : Nat) (hl : l < 2) :
    cbe { in_code := 0, edges := e, code := c, prev_edge_len := pel, prev := pv,
          timestamps := ts, last_edge_tick := t } l k =
      ({ in_code := 0, edges := e+1, code := c, prev_edge_len := pel, prev := 1,
         timestamps := [{ level := l, tick := k, len := tickDiff t k, bits := e+1 }],
         last_edge_tick := k }, none, [0, WATCHDOG_MS]) := by
  simp [cbe, hl, he]

theorem cbe_cap (m : Nat) (hm : 1 ≤ m) (c pel pv : Nat) (ts : List Timestamp)
    (t d l : Nat) (hl : l < 2) (hd : d < 2 ^ 32) :
    cbe { in_code := 0, edges := 2*m, code := c, prev_edge_len := pel, prev := pv,
          timestamps := ts, last_edge_tick := t } l (t + d) =
      ({ in_code := 0, edges := 2*m+1, code := c, prev_edge_len := d, prev := pv,
         timestamps := [{ level := l, tick := t+d, len := d, bits := 2*m+1 }],
         last_edge_tick := t+d }, none, [0, WATCHDOG_MS]) := by
  have h1 : ¬ (2*m < 2) := by omega
  have h2 : ¬ (2*m % 2 = 1) := by omega
  simp [cbe, hl, h1, h2, tickDiff_add t d hd]

theorem cbe_dec (m : Nat) (hm : 1 ≤ m) (c pel pv : Nat) (ts : List Timestamp)
    (t d l : Nat) (hl : l < 2) (hd : d < 2 ^ 32) :
    cbe { in_code := 0, edges := 2*m+1, code := c, prev_edge_len := pel, prev := pv,
          timestamps := ts, last_edge_tick := t } l (t + d) =
      ({ decode { in_code := 0, edges := 2*m+1, code := c, prev_edge_len := pel,
                  prev := pv, timestamps := [], last_edge_tick := t+d } pel d with
           edges := 2*m+1+1,
           timestamps := [{ level := l, tick := t+d, len := d, bits := 2*m+1+1 }] },
       none, [0, WATCHDOG_MS]) := by
  have h1 : ¬ (2*m+1 < 2) := by omega
  have h2 : (2*m+1) % 2 = 1 := by omega
  simp [cbe, hl, h1, h2, tickDiff_add t d hd, decode_edges, decode_timestamps]

theorem h417 : (417 : Nat) < 2 ^ 32 := by norm_num

theorem h834 : (834 : Nat) < 2 ^ 32 := by norm_num

theorem runA_nil (m c pel t : Nat) (ts : List Timestamp) :
    runA [] m c pel t ts =
      ({ in_code := 0, edges := 2*m, code := c, prev_edge_len := pel, prev := 1,
         timestamps := ts, last_edge_tick := t }, []) := by
  simp [runA, busEdges, ticksOf, runEvents]

theorem runA_cons_true (bs : List Bool) (m c pel t : Nat) (ts : List Timestamp)
    (hm : 1 ≤ m) :
    runA (true :: bs) m c pel t ts =
      runA bs (m+1) (c*2+1) 417 (t+417+417)
        [{ level := 1, tick := t+417+417, len := 417, bits := 2*m+1+1 }] := by
  have hm2 : 2*(m+1) = 2*m+1+1 := by ring
  simp only [runA, hm2, List.flatMap_cons, rxCell, if_pos, List.cons_append,
    List.append_assoc, List.nil_append]
  simp only [busEdges, if_neg, if_pos, Bool.false_eq_true, ite_false, ite_true,
    reduceIte]
  simp only [ticksOf, cond_false, cond_true]
  simp only [runEvents]
  rw [cbe_cap m hm c pel 1 ts t 417 0 (by norm_num) h417]
  rw [cbe_dec m hm c 417 1
      [{ level := 0, tick := t+417, len := 417, bits := 2*m+1 }]
      (t+417) 417 1 (by norm_num) h417]
  rw [decode_SS1]
  simp

theorem runA_false_nil (m c pel t : Nat) (ts : List Timestamp) (hm : 1 ≤ m) :
    runA [false] m c pel t ts =
      ({ in_code := 0, edges := 2*m+1+1, code := c*2, prev_edge_len := 834,
         prev := 0,
         timestamps := [{ level := 1, tick := t+834+417, len := 417, bits := 2*m+1+1 }],
         last_edge_tick := t+834+417 }, []) := by
  simp only [runA, List.flatMap_cons, List.flatMap_nil, rxCell, List.cons_append,
    List.append_assoc, List.nil_append, ite_false, ite_true, reduceIte]
  simp only [busEdges, Bool.false_eq_true, ite_false, ite_true, reduceIte]
  norm_num only
  simp only [ticksOf, cond_false, cond_true]
  simp only [runEvents]
  rw [cbe_cap m hm c pel 1 ts t 834 0 (by norm_num) h834]
  rw [cbe_dec m hm c 834 1
      [{ level := 0, tick := t+834, len := 834, bits := 2*m+1 }]
      (t+834) 417 1 (by norm_num) h417]
  rw [decode_LS1]
  simp [ticksOf, runEvents]

theorem runA_false_true (bs : List Bool) (m c pel t : Nat) (ts : List Timestamp)
    (hm : 1 ≤ m) :
    runA (false :: true :: bs) m c pel t ts =
      runA bs (m+1) (c*2*2+1) 834 (t+834+834)
        [{ level := 1, tick := t+834+834, len := 834, bits := 2*m+1+1 }] := by
  have hm2 : 2*(m+1) = 2*m+1+1 := by ring
  simp only [runA, hm2, List.flatMap_cons, rxCell, List.cons_append,
    List.append_assoc, List.nil_append, ite_false, ite_true, reduceIte]
  simp only [busEdges, Bool.false_eq_true, ite_false, ite_true, reduceIte]
  norm_num only
  simp only [ticksOf, cond_false, cond_true]
  simp only [runEvents]
  rw [cbe_cap m hm c pel 1 ts t 834 0 (by norm_num) h834]
  rw [cbe_dec m hm c 834 1
      [{ level := 0, tick := t+834, len := 834, bits := 2*m+1 }]
      (t+834) 834 1 (by norm_num) h834]
  rw [decode_LL1]
  simp

theorem runA_false_false (bs : List Bool) (m c pel t : Nat) (ts : List Timestamp)
    (hm : 1 ≤ m) :
    runA (false :: false :: bs) m c pel t ts =
      runB bs (m+1) (c*2) (t+834+417+417)
        [{ level := 0, tick := t+834+417+417, len := 417, bits := 2*(m+1)+1 }] := by
  have hm2 : 2*m+1+1 = 2*(m+1) := by ring
  simp only [runA, runB, List.flatMap_cons, rxCell, List.cons_append,
    List.append_assoc, List.nil_append, ite_false, ite_true, reduceIte]
  simp only [busEdges, Bool.false_eq_true, ite_false, ite_true, reduceIte]
  norm_num only
  simp only [ticksOf, cond_false, cond_true]
  simp only [runEvents]
  rw [cbe_cap m hm c pel 1 ts t 834 0 (by norm_num) h834]
  rw [cbe_dec m hm c 834 1
      [{ level := 0, tick := t+834, len := 834, bits := 2*m+1 }]
      (t+834) 417 1 (by norm_num) h417]
  rw [decode_LS1]
  rw [hm2]
  rw [cbe_cap (m+1) (by omega) (c*2) 834 0
      [{ level := 1, tick := t+834+417, len := 417, bits := 2*(m+1) }]
      (t+834+417) 417 0 (by norm_num) h417]
  simp

theorem runB_nil (m c t : Nat) (ts : List Timestamp) (hm : 1 ≤ m) :
    runB [] m c t ts =
      ({ in_code := 0, edges := 2*m+1+1, code := c*2, prev_edge_len := 417,
         prev := 0,
         timestamps := [{ level := 1, tick := t+417, len := 417, bits := 2*m+1+1 }],
         last_edge_tick := t+417 }, []) := by
  simp only [runB, List.flatMap_nil, List.nil_append]
  simp only [busEdges, Bool.false_eq_true, ite_false, ite_true, reduceIte]
  simp only [ticksOf, cond_false, cond_true]
  simp only [runEvents]
  rw [cbe_dec m hm c 417 0 ts t 417 1 (by norm_num) h417]
  rw [decode_SS0]
  simp [ticksOf, runEvents]

theorem runB_cons_true (bs : List Bool) (m c t : Nat) (ts : List Timestamp)
    (hm : 1 ≤ m) :
    runB (true :: bs) m c t ts =
      runA bs (m+1) (c*2*2+1) 417 (t+834)
        [{ level := 1, tick := t+834, len := 834, bits := 2*m+1+1 }] := by
  have hm2 : 2*(m+1) = 2*m+1+1 := by ring
  simp only [runA, runB, hm2, List.flatMap_cons, rxCell, List.cons_append,
    List.append_assoc, List.nil_append, ite_false, ite_true, reduceIte]
  simp only [busEdges, Bool.false_eq_true, ite_false, ite_true, reduceIte]
  norm_num only
  simp only [ticksOf, cond_false, cond_true]
  simp only [runEvents]
  rw [cbe_dec m hm c 417 0 ts t 834 1 (by norm_num) h834]
  rw [decode_SL0]
  simp

theorem runB_cons_false (bs : List Bool) (m c t : Nat) (ts : List Timestamp)
    (hm : 1 ≤ m) :
    runB (false :: bs) m c t ts =
      runB bs (m+1) (c*2) (t+417+417)
        [{ level := 0, tick := t+417+417, len := 417, bits := 2*(m+1)+1 }] := by
  have hm2 : 2*m+1+1 = 2*(m+1) := by ring
  simp only [runB, List.flatMap_cons, rxCell, List.cons_append,
    List.append_assoc, List.nil_append, ite_false, ite_true, reduceIte]
  simp only [busEdges, Bool.false_eq_true, ite_false, ite_true, reduceIte]
  simp only [ticksOf, cond_false, cond_true]
  simp only [runEvents]
  rw [cbe_dec m hm c 417 0 ts t 417 1 (by norm_num) h417]
  rw [decode_SS0]
  rw [hm2]
  rw [cbe_cap (m+1) (by omega) (c*2) 417 0
      [{ level := 1, tick := t+417, len := 417, bits := 2*(m+1) }]
      (t+417) 417 0 (by norm_num) h417]
  simp

theorem sendBits_succ (code n : Nat) :
    sendBits code (n + 1) = code.testBit n :: sendBits code n := by
  rw [sendBits_testBit, sendBits_testBit, List.range_succ_eq_map]
  simp only [List.map_cons, List.map_map, Function.comp_def, Nat.add_sub_cancel,
    Nat.sub_zero]
  congr 1
  apply List.map_congr_left
  intro i _
  congr 1
  omega

theorem foldl_sendBits (code : Nat) : ∀ (bits a : Nat),
    List.foldl step2 a (sendBits code bits) = a * 2 ^ bits + code % 2 ^ bits := by
  intro bits
  induction bits with
  | zero => intro a; simp [sendBits, step2, Nat.mod_one]
  | succ n ihn =>
    intro a
    rw [sendBits_succ, List.foldl_cons, ihn]
    have hbit : (cond (code.testBit n) 1 0 : Nat) = code / 2 ^ n % 2 := by
      rcases h : code.testBit n with _ | _
      · rw [Nat.testBit_to_div_mod] at h
        simp only [decide_eq_false_iff_not] at h
        simp only [cond_false]
        omega
      · rw [Nat.testBit_to_div_mod] at h
        simp only [decide_eq_true_eq] at h
        simp [h]
    have hmod : code % 2 ^ (n+1) = code % 2 ^ n + 2 ^ n * (code / 2 ^ n % 2) := by
      rw [pow_succ, Nat.mod_mul]
    rw [step2, hbit, hmod, pow_succ]
    ring

theorem mainAB (n : Nat) : ∀ bs : List Bool, bs.length ≤ n →
    (∀ m c pel t ts, 1 ≤ m →
      (runA bs m c pel t ts).1.code = List.foldl step2 c bs ∧
        (runA bs m c pel t ts).2 = []) ∧
    (∀ m c t ts, 1 ≤ m →
      (runB bs m c t ts).1.code = List.foldl step2 (c*2) bs ∧
        (runB bs m c t ts).2 = []) := by
  induction n with
  | zero =>
    intro bs hbs
    have hb : bs = [] := List.length_eq_zero.mp (Nat.le_zero.mp hbs)
    subst hb
    constructor
    · intro m c pel t ts hm
      rw [runA_nil]
      simp
    · intro m c t ts hm
      rw [runB_nil _ _ _ _ hm]
      simp
  | succ n ih =>
    intro bs hbs
    refine ⟨?_, ?_⟩
    · intro m c pel t ts hm
      match bs, hbs with
      | [], _ =>
        rw [runA_nil]
        simp
      | true :: bs', hbs =>
        rw [runA_cons_true bs' m c pel t ts hm]
        have h := (ih bs' (by simp at hbs; omega)).1 (m+1) (c*2+1) 417 (t+417+417)
          [{ level := 1, tick := t+417+417, len := 417, bits := 2*m+1+1 }] (by omega)
        refine ⟨?_, h.2⟩
        rw [h.1]
        simp [step2]
      | [false], _ =>
        rw [runA_false_nil m c pel t ts hm]
        simp [step2]
      | false :: true :: bs', hbs =>
        rw [runA_false_true bs' m c pel t ts hm]
        have h := (ih bs' (by simp at hbs; omega)).1 (m+1) (c*2*2+1) 834 (t+834+834)
          [{ level := 1, tick := t+834+834, len := 834, bits := 2*m+1+1 }] (by omega)
        refine ⟨?_, h.2⟩
        rw [h.1]
        simp [step2]
      | false :: false :: bs', hbs =>
        rw [runA_false_false bs' m c pel t ts hm]
        have h := (ih bs' (by simp at hbs; omega)).2 (m+1) (c*2) (t+834+417+417)
          [{ level := 0, tick := t+834+417+417, len := 417, bits := 2*(m+1)+1 }] (by omega)
        refine ⟨?_, h.2⟩
        rw [h.1]
        simp [step2]
    · intro m c t ts hm
      match bs, hbs with
      | [], _ =>
        rw [runB_nil _ _ _ _ hm]
        simp
      | true :: bs', hbs =>
        rw [runB_cons_true bs' m c t ts hm]
        have h := (ih bs' (by simp at hbs; omega)).1 (m+1) (c*2*2+1) 417 (t+834)
          [{ level := 1, tick := t+834, len := 834, bits := 2*m+1+1 }] (by omega)
        refine ⟨?_, h.2⟩
        rw [h.1]
        simp [step2]
      | false :: bs', hbs =>
        rw [runB_cons_false bs' m c t ts hm]
        have h := (ih bs' (by simp at hbs; omega)).2 (m+1) (c*2) (t+417+417)
          [{ level := 0, tick := t+417+417, len := 417, bits := 2*(m+1)+1 }] (by omega)
        refine ⟨?_, h.2⟩
        rw [h.1]
        simp [step2]

theorem rxEdges_unfold (code bits gap : Nat) :
    rxEdges code bits 417 gap =
      (false, gap) :: (true, 417) ::
        busEdges true 417 ((sendBits code bits).flatMap rxCell ++ [(true, 834)]) := by
  unfold rxEdges sendTrain makeWaveStart makeWaveStop
  simp only [List.map_append, List.map_cons, List.map_nil, Bool.not_true,
    Bool.not_false, List.map_flatMap]
  have hcell : ∀ b ∈ sendBits code bits,
      ((if b then makeWave1 417 else makeWave0 417).map
        (fun p => (!p.1, p.2))) = rxCell b := by
    intro b _
    cases b <;> simp [makeWave1, makeWave0, rxCell]
  rw [List.flatMap_congr hcell]
  norm_num only
  simp only [List.cons_append, List.nil_append, List.append_assoc]
  simp only [busEdges, Bool.false_eq_true, Bool.true_eq_false, ite_false,
    ite_true, reduceIte]

/-! ## Claim theorems -/

/-- C7.  Classifier point values and bounds: with the constants of
`dali_monitor.py` (short window 350-490, long window 760-900), `classify`
maps 417 to SHORT, 834 to LONG and 600 to INVALID; it is a plain function of
the duration alone (it is defined as one). -/
theorem C7_classifier_points :
    classify 417 = .SHORT ∧ classify 834 = .LONG ∧ classify 600 = .INVALID ∧
      MIN_TE = 350 ∧ MAX_TE = 490 ∧ MIN_2TE = 760 ∧ MAX_2TE = 900 := by
  decide

/-- C10.  Post-delivery reset invariant: `rx.stop` zeroes the accumulated
code, the edge counter and the in-progress flag, and the frame handed to the
user callback carries the code and raw-edge trace captured before that
reset. -/
theorem C10_stop_resets_before_callback (s : RxState) :
    (stop s).1.code = 0 ∧ (stop s).1.edges = 0 ∧ (stop s).1.in_code = 0 ∧
      (stop s).2.frame = s.code ∧ (stop s).2.timestamps = s.timestamps := by
  exact ⟨rfl, rfl, rfl, rfl, rfl⟩

/-- C4 counterexample.  A watchdog timeout delivered while the decoder is
IDLE (fresh state: no edges, empty accumulator) does NOT deliver nothing:
`_cbe` calls `stop` unconditionally on a timeout event, so the user callback
is invoked with a spurious frame of value 0. -/
theorem C4_counterexample :
    (cbe (initState 0) 2 0).2.1 = some { frame := 0, timestamps := [] } := by
  decide

/-- C4 (amended).  Whenever the inter-frame timeout event reaches the edge
callback — in ANY state, IDLE included — the decoder zeroes the accumulator,
edge counter and flag and delivers the previously accumulated value together
with the raw-edge trace (the payload carries no explicit bit length); a
timeout while IDLE therefore delivers a spurious zero-value frame rather
than nothing. -/
theorem C4_timeout_always_delivers (s : RxState) (t : Nat) :
    cbe s 2 t =
      ({ s with edges := 0, code := 0, in_code := 0 },
       some { frame := s.code, timestamps := s.timestamps }, [0]) := by
  rfl

/-- C5 counterexample.  The encoded pulse train does not begin with a single
half-bit start segment: for `send(0, bits=1)` the train produced by the
source has five segments (two-segment full-cell start, one two-half bit
cell, stop), while the spec's claimed shape has four. -/
theorem C5_counterexample : sendTrain 0 1 417 ≠ specPulseTrain 0 1 417 := by
  decide

/-- C5 (amended).  Encoder output structure: the pulse train is one FULL
Manchester '1' start cell (pin high Te then low Te — two half-bit segments,
not one), then per bit, MSB first, a two-half cell (high-then-low for '1',
low-then-high for '0'), then a 2*Te stop segment at the idle (pin low)
level; hence `2*bits + 3` segments in total — an even two half-segments per
bit — and the train ends in the stop segment of width `2*te`. -/
theorem C5_train_structure (code bits te : Nat) :
    sendTrain code bits te =
      [(true, te), (false, te)] ++
        (List.range bits).flatMap (fun i =>
          if code / 2 ^ (bits - 1 - i) % 2 = 1 then [(true, te), (false, te)]
          else [(false, te), (true, te)]) ++
        [(false, 2 * te)] ∧
    (sendTrain code bits te).length = 2 * bits + 3 ∧
    (sendTrain code bits te).getLast? = some (false, 2 * te) := by
  have hshape : sendTrain code bits te =
      [(true, te), (false, te)] ++
        (List.range bits).flatMap (fun i =>
          if code / 2 ^ (bits - 1 - i) % 2 = 1 then [(true, te), (false, te)]
          else [(false, te), (true, te)]) ++
        [(false, 2 * te)] := by
    unfold sendTrain makeWaveStart makeWaveStop makeWave1 makeWave0
    rw [sendBits_testBit, List.flatMap_map]
    congr 1
    congr 1
    apply List.flatMap_congr
    intro i _
    rcases h : code.testBit (bits - 1 - i) with _ | _
    · rw [Nat.testBit_to_div_mod] at h
      simp only [decide_eq_false_iff_not] at h
      simp [h]
    · rw [Nat.testBit_to_div_mod] at h
      simp only [decide_eq_true_eq] at h
      simp [h]
  refine ⟨hshape, ?_, ?_⟩
  · rw [hshape]
    simp only [List.length_append, List.length_flatMap, Function.comp_def]
    have hc : ∀ i ∈ List.range bits,
        (fun i => (if code / 2 ^ (bits - 1 - i) % 2 = 1
         then [(true, te), (false, te)] else [(false, te), (true, te)]).length) i
          = (fun _ => 2) i := by
      intro i _
      simp only
      split <;> rfl
    rw [List.map_congr_left hc, List.map_const', List.sum_replicate]
    simp only [List.length_range, List.length_cons, List.length_nil, smul_eq_mul]
    omega
  · rw [hshape]
    exact List.getLast?_concat _

/-- C6 counterexample.  An out-of-range value is not rejected: `send` with
`value = 0x10000` and `bit_count = 16` succeeds, and emits exactly the pulse
train of value 0 — the high bit is silently dropped by the `code & bit`
masking (implicit truncation instead of an explicit surfaced error). -/
theorem C6_counterexample : send 65536 16 417 = some (sendTrain 0 16 417) := by
  decide

/-- C6 (amended).  `DaliTransmitter.send` performs no range validation: for
`bit_count > 0` the emitted train depends on the value only through
`value mod 2^bit_count` (implicit truncation by bit masking), and the only
input it refuses is `bit_count = 0`, which dies on the negative shift
`1 << (bits - 1)` rather than on an explicit validation. -/
theorem C6_no_validation_truncates (code bits te : Nat) :
    send code bits te =
      (if bits = 0 then none else some (sendTrain (code % 2 ^ bits) bits te)) := by
  unfold send sendTrain
  rw [sendBits_mod]

/-- C8.  Watchdog discipline of `rx._cbe`: every invocation cancels the
pending timeout first (`_wdog(0)` is the first timer call in both branches);
an edge event then re-arms it to `WATCHDOG_MS = 2` ms after the edge has
been processed, a window within ~1.8-2 ms and at least `2 * MAX_2TE`;
a timeout event leaves the timer cancelled (its only call is `_wdog(0)`),
so the timeout cannot fire again before a new edge re-arms it. -/
theorem C8_watchdog_discipline (s : RxState) (level tick : Nat) :
    (cbe s level tick).2.2 = (if level < 2 then [0, WATCHDOG_MS] else [0]) ∧
      ((cbe s level tick).2.2).head? = some 0 ∧
      ((cbe s 2 tick).2.2).getLast? = some 0 ∧
      ((cbe s 0 tick).2.2).getLast? = some WATCHDOG_MS ∧
      ((cbe s 1 tick).2.2).getLast? = some WATCHDOG_MS ∧
      WATCHDOG_MS * 1000 = 2000 ∧ 2 * MAX_2TE ≤ WATCHDOG_MS * 1000 ∧
      WATCHDOG_MS * 1000 ≤ 2000 := by
  by_cases h : level < 2 <;>
    simp [cbe, h, WATCHDOG_MS, MAX_2TE]

/-- C2 (code bug witnessed).  A mid-frame segment of 600 µs — outside both
tolerance windows — does not abort the attempt: `_decode` sets the
`_in_code` flag to 0, but nothing ever sets that flag to 1 or consults it to
suppress delivery, so accumulation continues and the watchdog timeout still
invokes the user callback (`on_frame`) with the garbage frame.  Here the
edge timeline start(2 edges), high 417, low 600(INVALID), then timeout,
delivers frame value 1. -/
theorem C2_invalid_segment_still_delivers :
    classify 600 = .INVALID ∧
      ((cbe (runEvents (initState 0)
          [(0, 1000), (1, 1417), (0, 1834), (1, 2434)]).1 2 0).2.1).map
        Frame.frame = some 1 := by
  decide

/-- C3 counterexample.  A (LONG, LONG) bit cell does not abort the frame:
transmitting value 5 (binary 101, 3 bits) produces a bit cell whose two
half-runs are both 834 µs (classified LONG); by the claim the decoder would
abort and deliver nothing for this attempt, but the decoder appends the two
bits 0,1 for that cell, keeps going, and the timeout delivers frame 5. -/
theorem C3_counterexample :
    classify 834 = .LONG ∧
      ((cbe (runEvents (initState 0)
          (ticksOf 0 (rxEdges 5 3 417 1000))).1 2 0).2.1).map
        Frame.frame = some 5 := by
  decide

/-- C3 (amended).  The actual bit-cell action table of `rx._decode`, with
`action = prev*4 + 2*[low LONG] + [high LONG]` and INVALID halves treated
like SHORT in the action (they only zero the dead `_in_code` flag):
(SHORT,SHORT) repeats the previous provisional bit; with prev=1 a LONG high
half appends the opposite bit 0, and (LONG,LONG) appends the two bits 0,1;
with prev=0 a LONG low half appends the two bits 0,1; the remaining
combinations (prev=0 with a LONG high half, and prev=1 with SHORT high +
LONG low) only zero the flag while still shifting a 0 into the accumulator
and leaving `prev` unchanged.  No combination discards the accumulator. -/
theorem C3_action_table (p : Bool) (ic e c pel : Nat) (ts : List Timestamp)
    (t h l : Nat) :
    decode { in_code := ic, edges := e, code := c, prev_edge_len := pel,
             prev := cond p 1 0, timestamps := ts, last_edge_tick := t } h l =
      (if classify h = .INVALID ∨ classify l = .INVALID then
        (if p then
          (if classify h = .LONG then
            (if classify l = .LONG then
              { in_code := 0, edges := e, code := c*2*2+1, prev_edge_len := pel,
                prev := 1, timestamps := ts, last_edge_tick := t }
            else
              { in_code := 0, edges := e, code := c*2, prev_edge_len := pel,
                prev := 0, timestamps := ts, last_edge_tick := t })
          else
            (if classify l = .LONG then
              { in_code := 0, edges := e, code := c*2, prev_edge_len := pel,
                prev := 1, timestamps := ts, last_edge_tick := t }
            else
              { in_code := 0, edges := e, code := c*2+1, prev_edge_len := pel,
                prev := 1, timestamps := ts, last_edge_tick := t }))
        else
          (if classify h = .LONG then
            { in_code := 0, edges := e, code := c*2, prev_edge_len := pel,
              prev := 0, timestamps := ts, last_edge_tick := t }
          else
            (if classify l = .LONG then
              { in_code := 0, edges := e, code := c*2*2+1, prev_edge_len := pel,
                prev := 1, timestamps := ts, last_edge_tick := t }
            else
              { in_code := 0, edges := e, code := c*2, prev_edge_len := pel,
                prev := 0, timestamps := ts, last_edge_tick := t })))
      else
        (if p then
          (if classify h = .LONG then
            (if classify l = .LONG then
              { in_code := ic, edges := e, code := c*2*2+1, prev_edge_len := pel,
                prev := 1, timestamps := ts, last_edge_tick := t }
            else
              { in_code := ic, edges := e, code := c*2, prev_edge_len := pel,
                prev := 0, timestamps := ts, last_edge_tick := t })
          else
            (if classify l = .LONG then
              { in_code := 0, edges := e, code := c*2, prev_edge_len := pel,
                prev := 1, timestamps := ts, last_edge_tick := t }
            else
              { in_code := ic, edges := e, code := c*2+1, prev_edge_len := pel,
                prev := 1, timestamps := ts, last_edge_tick := t }))
        else
          (if classify h = .LONG then
            { in_code := 0, edges := e, code := c*2, prev_edge_len := pel,
              prev := 0, timestamps := ts, last_edge_tick := t }
          else
            (if classify l = .LONG then
              { in_code := ic, edges := e, code := c*2*2+1, prev_edge_len := pel,
                prev := 1, timestamps := ts, last_edge_tick := t }
            else
              { in_code := ic, edges := e, code := c*2, prev_edge_len := pel,
                prev := 0, timestamps := ts, last_edge_tick := t })))) := by
  cases hh : classify h <;> cases hl : classify l <;> cases p <;>
    simp [decode, hh, hl]

theorem cbe_lt2 (s : RxState) (l k : Nat) (hl : l < 2) (he : s.edges < 2) :
    cbe s l k =
      ({ s with
          last_edge_tick := k, prev := 1, edges := s.edges + 1,
          timestamps := (if s.in_code = 0 then [] else s.timestamps) ++
            [{ level := l, tick := k, len := tickDiff s.last_edge_tick k,
               bits := s.edges + 1 }] }, none, [0, WATCHDOG_MS]) := by
  by_cases hi : s.in_code = 0 <;> simp [cbe, hl, he, hi]

theorem cbe_even (s : RxState) (l k : Nat) (hl : l < 2) (h2 : ¬ s.edges < 2)
    (hp : ¬ s.edges % 2 = 1) :
    cbe s l k =
      ({ s with
          last_edge_tick := k,
          prev_edge_len := tickDiff s.last_edge_tick k, edges := s.edges + 1,
          timestamps := (if s.in_code = 0 then [] else s.timestamps) ++
            [{ level := l, tick := k, len := tickDiff s.last_edge_tick k,
               bits := s.edges + 1 }] }, none, [0, WATCHDOG_MS]) := by
  by_cases hi : s.in_code = 0 <;> simp [cbe, hl, h2, hp, hi]

theorem cbe_odd_gen (s : RxState) (l k : Nat) (hl : l < 2) (h2 : ¬ s.edges < 2)
    (hp : s.edges % 2 = 1) :
    cbe s l k =
      ({ decode { s with
            last_edge_tick := k,
            timestamps := if s.in_code = 0 then [] else s.timestamps }
          s.prev_edge_len (tickDiff s.last_edge_tick k) with
          edges := s.edges + 1,
          timestamps := (if s.in_code = 0 then [] else s.timestamps) ++
            [{ level := l, tick := k, len := tickDiff s.last_edge_tick k,
               bits := s.edges + 1 }] }, none, [0, WATCHDOG_MS]) := by
  by_cases hi : s.in_code = 0 <;>
    simp [cbe, hl, h2, hp, hi, decode_edges, decode_timestamps]

theorem decode_congr (s s' : RxState) (hc : s.code = s'.code)
    (hp : s.prev = s'.prev) (hi : s.in_code = s'.in_code) (h l : Nat) :
    (decode s h l).code = (decode s' h l).code ∧
    (decode s h l).prev = (decode s' h l).prev ∧
    (decode s h l).in_code = (decode s' h l).in_code := by
  simp only [decode]
  rw [hc, hp, hi]
  split_ifs <;> simp

theorem cbe_Rrel (s s' : RxState) (hR : Rrel s s') (l k : Nat) :
    Rrel (cbe s l k).1 (cbe s' l k).1 ∧
      ((cbe s l k).2.1).map Frame.frame = ((cbe s' l k).2.1).map Frame.frame := by
  obtain ⟨he, hc, hic, h1, h3⟩ := hR
  by_cases hl : l < 2
  · by_cases he2 : s.edges < 2
    · rw [cbe_lt2 s l k hl he2, cbe_lt2 s' l k hl (he ▸ he2)]
      refine ⟨⟨by simp [he], by simp [hc], by simp [hic], ?_, ?_⟩, rfl⟩
      · intro _
        simp
      · intro hge
        simp only at hge ⊢
        have : 3 ≤ s.edges + 1 := hge
        have hpe : s.prev_edge_len = s'.prev_edge_len := h3 (by omega)
        simp [hpe]
    · by_cases hp : s.edges % 2 = 1
      · rw [cbe_odd_gen s l k hl he2 hp, cbe_odd_gen s' l k hl (he ▸ he2) (he ▸ hp)]
        have hlast : s.last_edge_tick = s'.last_edge_tick := (h1 (by omega)).2
        have hprev : s.prev = s'.prev := (h1 (by omega)).1
        have hpel : s.prev_edge_len = s'.prev_edge_len := h3 (by omega)
        have hdc := decode_congr
          { s with
            last_edge_tick := k,
            timestamps := if s.in_code = 0 then [] else s.timestamps }
          { s' with
            last_edge_tick := k,
            timestamps := if s'.in_code = 0 then [] else s'.timestamps }
          (by simpa using hc) (by simpa using hprev) (by simpa using hic)
          s.prev_edge_len (tickDiff s.last_edge_tick k)
        rw [hpel, hlast] at hdc ⊢
        refine ⟨⟨by simp [he], by simpa using hdc.1, by simpa using hdc.2.2,
          ?_, ?_⟩, rfl⟩
        · intro _
          refine ⟨by simpa using hdc.2.1, ?_⟩
          simp [decode_last_edge_tick]
        · intro _
          simp [decode_prev_edge_len, hpel]
      · rw [cbe_even s l k hl he2 hp, cbe_even s' l k hl (he ▸ he2) (he ▸ hp)]
        have hlast : s.last_edge_tick = s'.last_edge_tick := (h1 (by omega)).2
        have hprev : s.prev = s'.prev := (h1 (by omega)).1
        refine ⟨⟨by simp [he], by simp [hc], by simp [hic], ?_, ?_⟩, rfl⟩
        · intro _
          simp [hprev]
        · intro _
          simp [hlast]
  · simp only [cbe, if_neg hl, stop]
    refine ⟨⟨by simp, by simp, by simp, ?_, ?_⟩, by simp [hc]⟩
    · intro hcontra
      simp at hcontra
    · intro hcontra
      simp at hcontra

theorem toList_map_frame (o o' : Option Frame)
    (h : o.map Frame.frame = o'.map Frame.frame) :
    o.toList.map Frame.frame = o'.toList.map Frame.frame := by
  cases o <;> cases o' <;> simp_all

theorem runEvents_Rrel (evs : List (Nat × Nat)) :
    ∀ s s', Rrel s s' →
      Rrel (runEvents s evs).1 (runEvents s' evs).1 ∧
        (runEvents s evs).2.map Frame.frame =
          (runEvents s' evs).2.map Frame.frame := by
  induction evs with
  | nil =>
    intro s s' h
    simpa [runEvents] using h
  | cons ev rest ihe =>
    intro s s' h
    rcases ev with ⟨l, k⟩
    have hstep := cbe_Rrel s s' h l k
    have hrec := ihe _ _ hstep.1
    refine ⟨by simpa [runEvents] using hrec.1, ?_⟩
    simp only [runEvents, List.map_append]
    rw [toList_map_frame _ _ hstep.2, hrec.2]

theorem runEvents_append (s : RxState) (xs ys : List (Nat × Nat)) :
    runEvents s (xs ++ ys) =
      ((runEvents (runEvents s xs).1 ys).1,
       (runEvents s xs).2 ++ (runEvents (runEvents s xs).1 ys).2) := by
  induction xs generalizing s with
  | nil => simp [runEvents]
  | cons x rest ihx =>
    rcases x with ⟨l, k⟩
    simp [runEvents, ihx, List.append_assoc]

/-- C9.  Decoder determinism: replaying the identical raw edge trace (a list
of `(level, tick)` events) through the decoder twice, each replay terminated
by the inter-frame timeout event, produces delivered frames with identical
values, and the edge counter (the decoder's record of how many edges — and
hence bits — the attempt contained) reaches the same count in both replays.
The second replay starts from the state the first replay left behind; the
`stop` reset makes the decoded result a function of the trace alone. -/
theorem C9_determinism (t0 : Nat) (tr : List (Nat × Nat)) :
    (runEvents (initState t0) (tr ++ [(2, 0)])).2.map Frame.frame =
      (runEvents (runEvents (initState t0) (tr ++ [(2, 0)])).1
        (tr ++ [(2, 0)])).2.map Frame.frame ∧
    (runEvents (initState t0) tr).1.edges =
      (runEvents (runEvents (initState t0) (tr ++ [(2, 0)])).1 tr).1.edges := by
  have hmid : Rrel (initState t0)
      (runEvents (initState t0) (tr ++ [(2, 0)])).1 := by
    rw [runEvents_append]
    simp [Rrel, initState, runEvents, cbe, stop]
  have h2 := runEvents_Rrel (tr ++ [(2, 0)]) _ _ hmid
  have h3 := runEvents_Rrel tr _ _ hmid
  exact ⟨h2.2, h3.1.1⟩

/-- C1.  Round-trip: for every 16-bit value, transmitting it with
`DaliTransmitter.send` (start cell, MSB-first Manchester cells, stop), turning
the pulse train into the nominal RX edge timeline after a pre-frame idle
`gap`, and feeding that timeline through `rx._cbe` accumulates exactly the
transmitted value with no frame delivered before the inter-frame timeout;
the timeout then delivers a frame whose value is the transmitted 16-bit
value. -/
theorem C1_roundtrip (value t0 gap : Nat) (hv : value < 2 ^ 16) :
    ((cbe (runEvents (initState t0)
        (ticksOf t0 (rxEdges value 16 417 gap))).1 2 0).2.1).map Frame.frame
      = some value ∧
    (runEvents (initState t0) (ticksOf t0 (rxEdges value 16 417 gap))).2 = [] := by
  have h := (mainAB 16 (sendBits value 16) (by simp [sendBits])).1 1 0 0
    (t0+gap+417)
    [{ level := 1, tick := t0+gap+417, len := 417, bits := 2 }] (by norm_num)
  rw [runA] at h
  norm_num only at h
  rw [rxEdges_unfold]
  simp only [ticksOf, cond_false, cond_true]
  simp only [runEvents, initState]
  rw [cbe_start 0 (by norm_num) 0 0 0 [] t0 0 (t0 + gap) (by norm_num)]
  rw [cbe_start 1 (by norm_num) 0 0 1
      [{ level := 0, tick := t0 + gap, len := tickDiff t0 (t0 + gap), bits := 0+1 }]
      (t0 + gap) 1 (t0 + gap + 417) (by norm_num)]
  rw [tickDiff_add _ 417 h417]
  norm_num only
  simp only [cbe, stop]
  norm_num only
  rw [h.1, h.2, foldl_sendBits]
  have hv65 : value < 65536 := by simpa using hv
  simp [Nat.mod_eq_of_lt hv65]

/-- C1 witness: the round trip at the concrete broadcast OFF command
`0xFE00` over 16 bits, with start tick 0 and a 2000 µs pre-frame idle. -/
theorem C1_roundtrip_witness :
    (65024 : Nat) < 2 ^ 16 ∧
      (((cbe (runEvents (initState 0)
          (ticksOf 0 (rxEdges 65024 16 417 2000))).1 2 0).2.1).map Frame.frame
        = some 65024 ∧
       (runEvents (initState 0) (ticksOf 0 (rxEdges 65024 16 417 2000))).2 = []) :=
  ⟨by norm_num, C1_roundtrip 65024 0 2000 (by norm_num)⟩

end Dali
